import Mathlib

/-!
Verification development for jaws2.py, a memory-pressure tool: it computes a
buffer size from a percentage of total physical memory, maps and locks an
anonymous region, and either idles (static mode) or performs bursty random
single-byte read/write traffic (dynamic mode) until interrupted.

The embedding below translates the source into Lean: Python's arbitrary
precision integers become Nat, Python floats become exactly-rounded rationals
(IEEE-754 binary64 round-to-nearest-even, modelled over Q), randomness becomes
an injected oracle, and the observable behaviour of a run becomes a trace of
events (acquire, write, read, sleep, release).
-/

namespace Jaws2

/-- Fuel-based number of binary digits of a natural number (0 for 0); the fuel
of 128 makes the definition structurally recursive so that the kernel can
evaluate it, and suffices for all inputs below 2 ^ 128. -/
def bitsAux : ℕ → ℕ → ℕ
  | 0, _ => 0
  | f + 1, n => if n = 0 then 0 else bitsAux f (n / 2) + 1

/-- Number of binary digits, valid for inputs below 2 ^ 128. -/
def bits (n : ℕ) : ℕ := bitsAux 128 n

/-- Fuel-based ceiling log base 2: least a with n ≤ 2 ^ a, for n ≤ 2 ^ 128. -/
def clogAux : ℕ → ℕ → ℕ
  | 0, _ => 0
  | f + 1, n => if n ≤ 1 then 0 else clogAux f ((n + 1) / 2) + 1

/-- Ceiling log base 2, valid for inputs up to 2 ^ 128. -/
def clog2 (n : ℕ) : ℕ := clogAux 128 n

/-- Binade exponent of a positive rational: the unique e with 2^e ≤ x < 2^(e+1),
valid for 2^(-127) < x < 2^127. -/
def elog (x : ℚ) : ℤ :=
  if 1 ≤ x then (bits (Int.toNat ⌊x⌋) : ℤ) - 1
  else -(clog2 (Int.toNat ⌈x⁻¹⌉) : ℤ)

/-- Round a rational to the nearest integer, ties to even. -/
def rne (x : ℚ) : ℤ :=
  if x - ⌊x⌋ < 1 / 2 then ⌊x⌋
  else if 1 / 2 < x - ⌊x⌋ then ⌊x⌋ + 1
  else if ⌊x⌋ % 2 = 0 then ⌊x⌋ else ⌊x⌋ + 1

/-- IEEE-754 binary64 rounding (round to nearest, ties to even) of a rational,
as used by CPython floats: the mantissa is forced into [2^52, 2^53) and rounded.
Faithful for magnitudes strictly between 2^(-127) and 2^127 (far wider than any
value the program manipulates); nonpositive inputs (only 0 arises) map to 0. -/
def fl (x : ℚ) : ℚ :=
  if x ≤ 0 then 0
  else (rne (x * 2 ^ (52 - elog x)) : ℚ) * 2 ^ (elog x - 52)

/-- From Jaws.__init__ (jaws2.py lines 22-23):
buffer_size = int(total_memory * (percentage / 100)).  `percentage / 100` is
float division of exact integers, the product is one float multiplication, and
int() truncates (floor, as the value is nonnegative). -/
def rawSize (totalMemory percentage : ℕ) : ℕ :=
  Int.toNat ⌊fl (fl (totalMemory : ℚ) * fl ((percentage : ℚ) / 100))⌋

/-- From Jaws.__init__ (jaws2.py lines 24-25): round down to a page multiple,
buffer_size = (buffer_size // page_size) * page_size. -/
def bufferSize (totalMemory percentage pageSize : ℕ) : ℕ :=
  rawSize totalMemory percentage / pageSize * pageSize

/-- State of a Jaws instance (class Jaws): the buffer holds the byte contents
of the mapped region when present. -/
structure Jaws where
  percentage : ℕ
  static_mode : Bool
  buffer : Option (ℕ → ℕ)
  buffer_size : ℕ
  page_size : ℕ

/-- Jaws.__init__ (jaws2.py lines 14-28): computes the buffer size and exits
with status 1 when it is zero; no region exists yet (buffer = none). -/
def initJaws (totalMemory percentage pageSize : ℕ) (static_mode : Bool) : Except ℕ Jaws :=
  if bufferSize totalMemory percentage pageSize = 0 then Except.error 1
  else Except.ok (Jaws.mk percentage static_mode none (bufferSize totalMemory percentage pageSize) pageSize)

/-- Observable events of a run: region acquisition (the mmap request),
single-byte writes and reads, timed sleeps, and region release. -/
inductive Event where
  | acquire (size : ℕ)
  | write (off v : ℕ)
  | read (off : ℕ)
  | sleep (dur : ℚ)
  | release

def isWriteB : Event → Bool
  | Event.write _ _ => true
  | _ => false

def isReadB : Event → Bool
  | Event.read _ => true
  | _ => false

def isSleepB : Event → Bool
  | Event.sleep _ => true
  | _ => false

def isAcquireB : Event → Bool
  | Event.acquire _ => true
  | _ => false

/-- An event never dereferences the region out of bounds. -/
def inBoundsB (bs : ℕ) : Event → Bool
  | Event.write off _ => decide (off < bs)
  | Event.read off => decide (off < bs)
  | _ => true

/-- random.randint(lo, hi): inclusive uniform draw, modelled from an oracle
value r as lo + r % (hi + 1 - lo), which realises exactly the values lo..hi. -/
def randint (lo hi r : ℕ) : ℕ := lo + r % (hi + 1 - lo)

/-- random.uniform(a, b) = a + (b - a) * u with u the unit draw of the oracle. -/
def uniform (a b u : ℚ) : ℚ := a + (b - a) * u

/-- Jaws.create_buffer (jaws2.py lines 31-41): requests the anonymous locked
mapping; on OS failure (oracle mmapOk = false) prints and exits 1.  The mmap
request itself is recorded as an acquire event even when it fails.  On success
the region is zero-initialized. -/
def create_buffer (mmapOk : Bool) (j : Jaws) : Except ℕ Jaws × List Event :=
  (if mmapOk then Except.ok { j with buffer := some fun _ => 0 }
   else Except.error 1,
   [Event.acquire j.buffer_size])

/-- Jaws.cleanup (jaws2.py lines 86-94): if a buffer is present, close it
(exceptions from close are caught and only printed, so cleanup itself never
raises; modelled by the total return type) and set it to none; otherwise do
nothing.  The release event is emitted when close succeeds. -/
def cleanup (closeFail : Bool) (j : Jaws) : Jaws × List Event :=
  match j.buffer with
  | some _ => ({ j with buffer := none }, if closeFail then [] else [Event.release])
  | none => (j, [])

/-- signal_handler (jaws2.py lines 114-119): on SIGINT, if the global instance
exists run its cleanup, then sys.exit(0).  Returns the instance state after
the handler together with the process exit status. -/
def signal_handler (jaws_instance : Option Jaws) (closeFail : Bool) : Option Jaws × ℕ :=
  match jaws_instance with
  | some j => (some (cleanup closeFail j).1, 0)
  | none => (jaws_instance, 0)

/-- Running state of the dynamic access generator: region contents, oracle
cursor, and the accumulated event trace. -/
structure Gen where
  mem : ℕ → ℕ
  k : ℕ
  trace : List Event

/-- One single-byte access (jaws2.py lines 55-62 and 69-73): draw an offset
with randint(0, buffer_size - 1); if offset < buffer_size write a random byte
there; if offset < buffer_size read the byte back.  Returns the new contents,
the emitted events, and the value the read returned (none if skipped). -/
def access1 (bs : ℕ) (mem : ℕ → ℕ) (roff rbyte : ℕ) : (ℕ → ℕ) × List Event × Option ℕ :=
  let offset := randint 0 (bs - 1) roff
  let p1 : (ℕ → ℕ) × List Event :=
    if offset < bs then
      (Function.update mem offset (randint 0 255 rbyte),
       [Event.write offset (randint 0 255 rbyte)])
    else (mem, [])
  let p2 : List Event × Option ℕ :=
    if offset < bs then ([Event.read offset], some (p1.1 offset)) else ([], none)
  (p1.1, p1.2 ++ p2.1, p2.2)

/-- One access inside the generator state, consuming two oracle values. -/
def accessStep (bs : ℕ) (rng : ℕ → ℕ) (g : Gen) : Gen :=
  let r := access1 bs g.mem (rng g.k) (rng (g.k + 1))
  Gen.mk r.1 (g.k + 2) (g.trace ++ r.2.1)

/-- A burst of n accesses (the inner for-loops of random_access). -/
def burst (bs : ℕ) (rng : ℕ → ℕ) : ℕ → Gen → Gen
  | 0, g => g
  | n + 1, g => burst bs rng n (accessStep bs rng g)

/-- One iteration of the dynamic while-loop (jaws2.py lines 52-75): a primary
burst of randint(5, 20) accesses, a sleep of uniform(0.01, 0.2), a secondary
burst of randint(1, 5) accesses, and a sleep of uniform(0.1, 1.5). -/
def dynIter (bs : ℕ) (rng : ℕ → ℕ) (urng : ℕ → ℚ) (g : Gen) : Gen :=
  let n1 := randint 5 20 (rng g.k)
  let g1 := burst bs rng n1 (Gen.mk g.mem (g.k + 1) g.trace)
  let d1 := uniform (1 / 100) (1 / 5) (urng g1.k)
  let g2 := Gen.mk g1.mem (g1.k + 1) (g1.trace ++ [Event.sleep d1])
  let n2 := randint 1 5 (rng g2.k)
  let g3 := burst bs rng n2 (Gen.mk g2.mem (g2.k + 1) g2.trace)
  let d2 := uniform (1 / 10) (3 / 2) (urng g3.k)
  Gen.mk g3.mem (g3.k + 1) (g3.trace ++ [Event.sleep d2])

/-- The dynamic while-loop run for a finite number of iterations (the run is
unbounded in the source; every finite prefix is modelled). -/
def dynLoop (bs : ℕ) (rng : ℕ → ℕ) (urng : ℕ → ℚ) : ℕ → Gen → Gen
  | 0, g => g
  | n + 1, g => dynLoop bs rng urng n (dynIter bs rng urng g)

/-- Jaws.random_access (jaws2.py lines 44-77): if the buffer is absent, print
an error and return at once (no access, no exception); otherwise run the
bursty loop.  Returns the final region contents and the event trace. -/
def random_access (buffer : Option (ℕ → ℕ)) (bs : ℕ) (rng : ℕ → ℕ) (urng : ℕ → ℚ)
    (iters : ℕ) : (ℕ → ℕ) × List Event :=
  match buffer with
  | none => (fun _ => 0, [])
  | some mem0 =>
      let g := dynLoop bs rng urng iters (Gen.mk mem0 0 [])
      (g.mem, g.trace)

/-- The static-mode idle wait (jaws2.py lines 104-108): repeated 1-second
sleeps until interrupted; n sleeps are observed before the interrupt. -/
def staticIdle (n : ℕ) : List Event := List.replicate n (Event.sleep 1)

/-- Jaws.run (jaws2.py lines 96-110): create the buffer (exiting 1 on mmap
failure), report utilization (no region access), then either the dynamic
access loop or the static idle wait, then cleanup.  Returns the region
contents at cleanup time, the final instance state, and the event trace;
an early exit carries its status and the events so far. -/
def runJaws (mmapOk closeFail : Bool) (rng : ℕ → ℕ) (urng : ℕ → ℚ) (iters : ℕ)
    (j : Jaws) : Except (ℕ × List Event) ((ℕ → ℕ) × Jaws × List Event) :=
  match create_buffer mmapOk j with
  | (Except.error c, evs) => Except.error (c, evs)
  | (Except.ok j1, evs) =>
      let body : (ℕ → ℕ) × List Event :=
        if j1.static_mode then ((j1.buffer).getD (fun _ => 0), staticIdle iters)
        else random_access j1.buffer j1.buffer_size rng urng iters
      let fin := cleanup closeFail j1
      Except.ok (body.1, fin.1, evs ++ body.2 ++ fin.2)

/-- Tier selection from main (jaws2.py lines 139-152): error status 1 when no
tier flag is given, otherwise the sequential if/elif chain over -low, -mid,
-high. -/
def selectPercentage (low mid high : Bool) : Except ℕ ℕ :=
  if !(low || mid || high) then Except.error 1
  else if low then Except.ok 30
  else if mid then Except.ok 50
  else if high then Except.ok 75
  else Except.error 1

/-- Modelled from the claim's words: tier selection where, among the flags
passed simultaneously, the one matched last wins (checking -high, then -mid,
then -low). -/
def lastMatchedSelect (low mid high : Bool) : Except ℕ ℕ :=
  if !(low || mid || high) then Except.error 1
  else if high then Except.ok 75
  else if mid then Except.ok 50
  else if low then Except.ok 30
  else Except.error 1

/-- Reference formulation of what the code does: the first flag matched in the
fixed order -low, -mid, -high wins. -/
def firstMatchedSelect (low mid high : Bool) : Except ℕ ℕ :=
  if low then Except.ok 30
  else if mid then Except.ok 50
  else if high then Except.ok 75
  else Except.error 1

/-- main (jaws2.py lines 124-157): parse tier flags, build the instance
(which exits 1 on a zero computed size), register the handler, run.  Returns
the exit status and the event trace (0 for a run that returns normally). -/
def mainJaws (totalMemory pageSize : ℕ) (low mid high static_mode : Bool)
    (mmapOk closeFail : Bool) (rng : ℕ → ℕ) (urng : ℕ → ℚ) (iters : ℕ) :
    ℕ × List Event :=
  match selectPercentage low mid high with
  | Except.error c => (c, [])
  | Except.ok percentage =>
      match initJaws totalMemory percentage pageSize static_mode with
      | Except.error c => (c, [])
      | Except.ok j =>
          match runJaws mmapOk closeFail rng urng iters j with
          | Except.error ce => ce
          | Except.ok (_, _, tr) => (0, tr)

/-- The three classes of program points at which the interrupt of claim C3
can arrive once the handler is registered. -/
inductive InterruptPoint where
  | staticWait
  | dynamicPause
  | beforeCreate

/-- The live global instance as seen by the signal handler at each interrupt
point: before creation the buffer is absent; in the static wait it is the
untouched zero region; in a dynamic pause it holds arbitrary contents. -/
def stateAt (p : InterruptPoint) (j : Jaws) (mem : ℕ → ℕ) : Option Jaws :=
  match p with
  | InterruptPoint.beforeCreate => some { j with buffer := none }
  | InterruptPoint.staticWait => some { j with buffer := some fun _ => 0 }
  | InterruptPoint.dynamicPause => some { j with buffer := some mem }

/-! Helper lemmas about the random draws and the access generator. -/

theorem randint_lt (bs r : ℕ) (h : 0 < bs) : randint 0 (bs - 1) r < bs := by
  show 0 + r % (bs - 1 + 1 - 0) < bs
  have hb : bs - 1 + 1 - 0 = bs := by omega
  rw [hb, Nat.zero_add]
  exact Nat.mod_lt r h

theorem randint_bounds (lo hi r : ℕ) (h : lo ≤ hi) :
    lo ≤ randint lo hi r ∧ randint lo hi r ≤ hi := by
  unfold randint
  have hm : r % (hi + 1 - lo) < hi + 1 - lo := Nat.mod_lt r (by omega)
  omega

theorem uniform_bounds (a b u : ℚ) (hab : a ≤ b) (h0 : 0 ≤ u) (h1 : u ≤ 1) :
    a ≤ uniform a b u ∧ uniform a b u ≤ b := by
  unfold uniform
  constructor
  · nlinarith
  · nlinarith

theorem access1_spec (bs : ℕ) (mem : ℕ → ℕ) (roff rbyte : ℕ) (h : 0 < bs) :
    access1 bs mem roff rbyte =
      (Function.update mem (randint 0 (bs - 1) roff) (randint 0 255 rbyte),
       [Event.write (randint 0 (bs - 1) roff) (randint 0 255 rbyte),
        Event.read (randint 0 (bs - 1) roff)],
       some (randint 0 255 rbyte)) := by
  have ho := randint_lt bs roff h
  simp [access1, ho, Function.update_same]

theorem accessStep_trace (bs : ℕ) (rng : ℕ → ℕ) (g : Gen) (h : 0 < bs) :
    (accessStep bs rng g).trace =
      g.trace ++ [Event.write (randint 0 (bs - 1) (rng g.k)) (randint 0 255 (rng (g.k + 1))),
        Event.read (randint 0 (bs - 1) (rng g.k))] := by
  simp [accessStep, access1_spec bs g.mem (rng g.k) (rng (g.k + 1)) h]

theorem burst_delta (bs : ℕ) (rng : ℕ → ℕ) (h : 0 < bs) :
    ∀ (n : ℕ) (g : Gen), ∃ Δ, (burst bs rng n g).trace = g.trace ++ Δ ∧
      Δ.countP isWriteB = n ∧ ∀ e ∈ Δ, isSleepB e = false ∧ inBoundsB bs e = true := by
  intro n
  induction n with
  | zero => exact fun g => ⟨[], by simp [burst], by simp, by simp⟩
  | succ n ih =>
    intro g
    obtain ⟨Δ, hΔ, hc, hb⟩ := ih (accessStep bs rng g)
    refine ⟨Event.write (randint 0 (bs - 1) (rng g.k)) (randint 0 255 (rng (g.k + 1))) ::
      Event.read (randint 0 (bs - 1) (rng g.k)) :: Δ, ?_, ?_, ?_⟩
    · show (burst bs rng n (accessStep bs rng g)).trace = _
      rw [hΔ, accessStep_trace bs rng g h]
      simp
    · simp [List.countP_cons, isWriteB, hc]
    · intro e he
      have ho := randint_lt bs (rng g.k) h
      simp only [List.mem_cons] at he
      rcases he with rfl | rfl | he
      · simp [isSleepB, inBoundsB, ho]
      · simp [isSleepB, inBoundsB, ho]
      · exact hb e he

theorem dynIter_trace (bs : ℕ) (rng : ℕ → ℕ) (urng : ℕ → ℚ) (g : Gen) (h : 0 < bs) :
    ∃ b1 b2 d1 d2 i1 i2,
      (dynIter bs rng urng g).trace =
        g.trace ++ (b1 ++ Event.sleep d1 :: (b2 ++ [Event.sleep d2])) ∧
      d1 = uniform (1 / 100) (1 / 5) (urng i1) ∧
      d2 = uniform (1 / 10) (3 / 2) (urng i2) ∧
      5 ≤ b1.countP isWriteB ∧ b1.countP isWriteB ≤ 20 ∧
      1 ≤ b2.countP isWriteB ∧ b2.countP isWriteB ≤ 5 ∧
      (∀ e ∈ b1, isSleepB e = false ∧ inBoundsB bs e = true) ∧
      (∀ e ∈ b2, isSleepB e = false ∧ inBoundsB bs e = true) := by
  obtain ⟨Δ1, h1, c1, m1⟩ :=
    burst_delta bs rng h (randint 5 20 (rng g.k)) (Gen.mk g.mem (g.k + 1) g.trace)
  set g1 := burst bs rng (randint 5 20 (rng g.k)) (Gen.mk g.mem (g.k + 1) g.trace) with hg1
  set d1 := uniform (1 / 100) (1 / 5) (urng g1.k) with hd1
  set g2 := Gen.mk g1.mem (g1.k + 1) (g1.trace ++ [Event.sleep d1]) with hg2
  obtain ⟨Δ2, h2, c2, m2⟩ :=
    burst_delta bs rng h (randint 1 5 (rng g2.k)) (Gen.mk g2.mem (g2.k + 1) g2.trace)
  set g3 := burst bs rng (randint 1 5 (rng g2.k)) (Gen.mk g2.mem (g2.k + 1) g2.trace) with hg3
  have hshape : (dynIter bs rng urng g).trace =
      g3.trace ++ [Event.sleep (uniform (1 / 10) (3 / 2) (urng g3.k))] := by
    rw [dynIter]
  have h1' : g1.trace = g.trace ++ Δ1 := h1
  have h2' : g3.trace = g2.trace ++ Δ2 := h2
  have hg2tr : g2.trace = g1.trace ++ [Event.sleep d1] := rfl
  refine ⟨Δ1, Δ2, d1, uniform (1 / 10) (3 / 2) (urng g3.k), g1.k, g3.k,
    ?_, hd1, rfl, ?_, ?_, ?_, ?_, m1, m2⟩
  · rw [hshape, h2', hg2tr, h1']
    simp [List.append_assoc]
  · rw [c1]; exact (randint_bounds 5 20 (rng g.k) (by norm_num)).1
  · rw [c1]; exact (randint_bounds 5 20 (rng g.k) (by norm_num)).2
  · rw [c2]; exact (randint_bounds 1 5 (rng g2.k) (by norm_num)).1
  · rw [c2]; exact (randint_bounds 1 5 (rng g2.k) (by norm_num)).2

theorem dynIter_pres (bs : ℕ) (rng : ℕ → ℕ) (urng : ℕ → ℚ) (g : Gen) (h : 0 < bs)
    (hg : ∀ e ∈ g.trace, inBoundsB bs e = true) :
    ∀ e ∈ (dynIter bs rng urng g).trace, inBoundsB bs e = true := by
  obtain ⟨b1, b2, d1, d2, i1, i2, htr, _, _, _, _, _, _, hb1, hb2⟩ :=
    dynIter_trace bs rng urng g h
  intro e he
  rw [htr] at he
  simp only [List.mem_append, List.mem_cons, List.mem_singleton] at he
  rcases he with he | he | rfl | he | rfl | he
  · exact hg e he
  · exact (hb1 e he).2
  · rfl
  · exact (hb2 e he).2
  · rfl
  · simp at he

theorem dynLoop_pres (bs : ℕ) (rng : ℕ → ℕ) (urng : ℕ → ℚ) (h : 0 < bs) :
    ∀ (n : ℕ) (g : Gen), (∀ e ∈ g.trace, inBoundsB bs e = true) →
      ∀ e ∈ (dynLoop bs rng urng n g).trace, inBoundsB bs e = true := by
  intro n
  induction n with
  | zero => intro g hg; exact hg
  | succ n ih =>
    intro g hg
    exact ih (dynIter bs rng urng g) (dynIter_pres bs rng urng g h hg)

/-! The claim theorems. -/

/-- Claim C2: in Dynamic mode every generated access offset lies in
[0, requested_bytes); the offset is checked against the bound before each
write and each read, so every write/read event of any finite run prefix is
in bounds and an out-of-bounds offset is never dereferenced. -/
theorem dynamic_offsets_in_bounds (bs iters : ℕ) (mem : ℕ → ℕ) (rng : ℕ → ℕ)
    (urng : ℕ → ℚ) (h : 0 < bs) :
    (∀ r, randint 0 (bs - 1) r < bs) ∧
    ∀ e ∈ (random_access (some mem) bs rng urng iters).2, inBoundsB bs e = true := by
  refine ⟨fun r => randint_lt bs r h, ?_⟩
  intro e he
  exact dynLoop_pres bs rng urng h iters (Gen.mk mem 0 []) (by simp) e he

theorem dynamic_offsets_in_bounds_witness :
    0 < 4096 ∧
    ((∀ r, randint 0 (4096 - 1) r < 4096) ∧
      ∀ e ∈ (random_access (some fun _ => 0) 4096 (fun i => i * 37 + 5)
        (fun _ => (0 : ℚ)) 2).2, inBoundsB 4096 e = true) :=
  ⟨by decide,
   dynamic_offsets_in_bounds 4096 2 (fun _ => 0) (fun i => i * 37 + 5) (fun _ => (0 : ℚ))
     (by decide)⟩

/-- Claim C3: at every interrupt point once the handler is registered — the
Static-mode idle wait, a Dynamic-mode pause, or before the region was ever
created — the handler releases the region (cleanup, safe on an uninitialized
state) and the process exits with status 0, leaving no live region. -/
theorem interrupt_cleanup_exit_zero (p : InterruptPoint) (j : Jaws) (mem : ℕ → ℕ)
    (closeFail : Bool) :
    signal_handler (stateAt p j mem) closeFail = (some { j with buffer := none }, 0) := by
  cases p <;> simp [signal_handler, stateAt, cleanup]

/-- Claim C4: release is idempotent.  A second cleanup after a first one
changes nothing and emits nothing, and cleanup on an instance whose region
was never acquired is a no-op; cleanup never raises (it catches any close
failure internally, reflected in its total type). -/
theorem cleanup_idempotent (f1 f2 : Bool) (j : Jaws) :
    cleanup f2 (cleanup f1 j).1 = ((cleanup f1 j).1, []) ∧
    cleanup f1 { j with buffer := none } = ({ j with buffer := none }, []) := by
  obtain ⟨p, s, b, bs, pg⟩ := j
  constructor
  · cases b <;> simp [cleanup]
  · simp [cleanup]

/-- Claim C6: each Dynamic-mode iteration performs, in order, a primary burst
whose access count lies in 5..20, a pause of duration in [0.01, 0.2], a
secondary burst whose access count lies in 1..5, and a pause of duration in
[0.1, 1.5]. -/
theorem dynamic_iteration_phases (bs : ℕ) (rng : ℕ → ℕ) (urng : ℕ → ℚ) (g : Gen)
    (h : 0 < bs) (hu : ∀ i, 0 ≤ urng i ∧ urng i ≤ 1) :
    ∃ b1 d1 b2 d2,
      (dynIter bs rng urng g).trace =
        g.trace ++ (b1 ++ Event.sleep d1 :: (b2 ++ [Event.sleep d2])) ∧
      (∀ e ∈ b1, isSleepB e = false) ∧ (∀ e ∈ b2, isSleepB e = false) ∧
      5 ≤ b1.countP isWriteB ∧ b1.countP isWriteB ≤ 20 ∧
      1 ≤ b2.countP isWriteB ∧ b2.countP isWriteB ≤ 5 ∧
      1 / 100 ≤ d1 ∧ d1 ≤ 1 / 5 ∧ 1 / 10 ≤ d2 ∧ d2 ≤ 3 / 2 := by
  obtain ⟨b1, b2, d1, d2, i1, i2, htr, hd1, hd2, c1l, c1u, c2l, c2u, hb1, hb2⟩ :=
    dynIter_trace bs rng urng g h
  obtain ⟨hd1l, hd1u⟩ := uniform_bounds (1 / 100) (1 / 5) (urng i1) (by norm_num) (hu i1).1 (hu i1).2
  obtain ⟨hd2l, hd2u⟩ := uniform_bounds (1 / 10) (3 / 2) (urng i2) (by norm_num) (hu i2).1 (hu i2).2
  rw [← hd1] at hd1l hd1u
  rw [← hd2] at hd2l hd2u
  exact ⟨b1, d1, b2, d2, htr, fun e he => (hb1 e he).1, fun e he => (hb2 e he).1,
    c1l, c1u, c2l, c2u, hd1l, hd1u, hd2l, hd2u⟩

theorem dynamic_iteration_phases_witness :
    0 < 4096 ∧
    ∃ b1 d1 b2 d2,
      (dynIter 4096 (fun _ => 0) (fun _ => (1 : ℚ) / 2) (Gen.mk (fun _ => 0) 0 [])).trace =
        (Gen.mk (fun _ => (0 : ℕ)) 0 []).trace ++
          (b1 ++ Event.sleep d1 :: (b2 ++ [Event.sleep d2])) ∧
      (∀ e ∈ b1, isSleepB e = false) ∧ (∀ e ∈ b2, isSleepB e = false) ∧
      5 ≤ b1.countP isWriteB ∧ b1.countP isWriteB ≤ 20 ∧
      1 ≤ b2.countP isWriteB ∧ b2.countP isWriteB ≤ 5 ∧
      1 / 100 ≤ d1 ∧ d1 ≤ 1 / 5 ∧ 1 / 10 ≤ d2 ∧ d2 ≤ 3 / 2 :=
  ⟨by decide,
   dynamic_iteration_phases 4096 (fun _ => 0) (fun _ => (1 : ℚ) / 2)
     (Gen.mk (fun _ => 0) 0 []) (by decide) (fun _ => by norm_num)⟩

/-- Claim C7 (corrected): with several tier flags passed simultaneously the
sequential if/elif chain makes the FIRST matched flag win, in the fixed order
-low, -mid, -high. -/
theorem tier_flag_first_match (low mid high : Bool) :
    selectPercentage low mid high = firstMatchedSelect low mid high := by
  cases low <;> cases mid <;> cases high <;> rfl

/-- Claim C7 counterexample: passing -low and -high yields 30 (the first flag
in the chain), not the 75 that a last-matched-wins rule would give. -/
theorem tier_flag_last_match_cex :
    selectPercentage true false true = Except.ok 30 ∧
    lastMatchedSelect true false true = Except.ok 75 ∧
    selectPercentage true false true ≠ lastMatchedSelect true false true := by
  refine ⟨rfl, rfl, ?_⟩
  intro hEq
  rw [show selectPercentage true false true = Except.ok 30 from rfl,
    show lastMatchedSelect true false true = Except.ok 75 from rfl] at hEq
  simp at hEq

/-- Claim C9: within one access of a Dynamic burst, the read performed right
after the write at the same offset returns exactly the byte value that was
just written. -/
theorem write_read_roundtrip (bs : ℕ) (mem : ℕ → ℕ) (roff rbyte : ℕ) (h : 0 < bs) :
    (access1 bs mem roff rbyte).2.1 =
      [Event.write (randint 0 (bs - 1) roff) (randint 0 255 rbyte),
       Event.read (randint 0 (bs - 1) roff)] ∧
    (access1 bs mem roff rbyte).2.2 = some (randint 0 255 rbyte) := by
  rw [access1_spec bs mem roff rbyte h]
  exact ⟨rfl, rfl⟩

theorem write_read_roundtrip_witness :
    0 < 8 ∧
    ((access1 8 (fun _ => 0) 3 300).2.1 =
      [Event.write (randint 0 (8 - 1) 3) (randint 0 255 300),
       Event.read (randint 0 (8 - 1) 3)] ∧
     (access1 8 (fun _ => 0) 3 300).2.2 = some (randint 0 255 300)) :=
  ⟨by decide, write_read_roundtrip 8 (fun _ => 0) 3 300 (by decide)⟩

/-- Claim C10: invoking the Dynamic access generator when the region was
never created (buffer absent) returns at once: no memory access is performed,
no event is emitted, and no error is raised (the function returns normally). -/
theorem random_access_no_buffer (bs : ℕ) (rng : ℕ → ℕ) (urng : ℕ → ℚ) (iters : ℕ) :
    random_access none bs rng urng iters = (fun _ => 0, []) := rfl

/-- Claim C8: in Static mode a successful run never touches the region between
creation and release: the trace holds no write and no read event, and the
region contents at release time are still the all-zero contents of the fresh
anonymous mapping. -/
theorem static_mode_untouched (closeFail : Bool) (rng : ℕ → ℕ) (urng : ℕ → ℚ)
    (iters : ℕ) (j : Jaws) (h : j.static_mode = true) :
    ∃ j2 tr, runJaws true closeFail rng urng iters j = Except.ok (fun _ => 0, j2, tr) ∧
      ∀ e ∈ tr, isWriteB e = false ∧ isReadB e = false := by
  refine ⟨{ j with buffer := none },
    [Event.acquire j.buffer_size] ++ staticIdle iters ++
      (if closeFail then [] else [Event.release]), ?_, ?_⟩
  · simp [runJaws, create_buffer, cleanup, h]
  · intro e he
    simp only [List.mem_append, List.mem_cons, List.not_mem_nil, or_false] at he
    rcases he with (rfl | he) | he
    · exact ⟨rfl, rfl⟩
    · rw [List.eq_of_mem_replicate (show e ∈ List.replicate iters (Event.sleep 1) from he)]
      exact ⟨rfl, rfl⟩
    · cases closeFail with
      | true => simp at he
      | false =>
          simp only [if_neg Bool.false_ne_true, List.mem_singleton] at he
          rw [he]
          exact ⟨rfl, rfl⟩

theorem static_mode_untouched_witness :
    (Jaws.mk 75 true none 8192 4096).static_mode = true ∧
    ∃ j2 tr, runJaws true false (fun _ => 0) (fun _ => (0 : ℚ)) 3 (Jaws.mk 75 true none 8192 4096) =
        Except.ok (fun _ => 0, j2, tr) ∧
      ∀ e ∈ tr, isWriteB e = false ∧ isReadB e = false :=
  ⟨rfl, static_mode_untouched false (fun _ => 0) (fun _ => (0 : ℚ)) 3
    (Jaws.mk 75 true none 8192 4096) rfl⟩

/-- Claim C5: when the computed buffer size is zero the constructor exits with
status 1 (a non-zero configuration-error status) before any allocation, and
the whole run makes no acquisition attempt: its trace holds no acquire event. -/
theorem zero_size_config_error (totalMemory pageSize : ℕ) (percentage : ℕ)
    (low mid high static_mode mmapOk closeFail : Bool) (rng : ℕ → ℕ) (urng : ℕ → ℚ)
    (iters : ℕ)
    (hsel : selectPercentage low mid high = Except.ok percentage)
    (h : bufferSize totalMemory percentage pageSize = 0) :
    initJaws totalMemory percentage pageSize static_mode = Except.error 1 ∧
    (mainJaws totalMemory pageSize low mid high static_mode mmapOk closeFail rng urng iters).1 = 1 ∧
    ∀ e ∈ (mainJaws totalMemory pageSize low mid high static_mode mmapOk closeFail rng urng iters).2,
      isAcquireB e = false := by
  have hinit : initJaws totalMemory percentage pageSize static_mode = Except.error 1 := by
    simp [initJaws, h]
  have hmain : mainJaws totalMemory pageSize low mid high static_mode mmapOk closeFail rng urng iters
      = (1, []) := by
    simp [mainJaws, hsel, hinit]
  refine ⟨hinit, ?_, ?_⟩
  · rw [hmain]
  · rw [hmain]
    intro e he
    simp at he

set_option maxRecDepth 4000 in
theorem zero_size_config_error_witness :
    selectPercentage true false false = Except.ok 30 ∧
    bufferSize 1 30 4096 = 0 ∧
    (initJaws 1 30 4096 false = Except.error 1 ∧
     (mainJaws 1 4096 true false false false true false (fun _ => 0) (fun _ => (0 : ℚ)) 1).1 = 1 ∧
     ∀ e ∈ (mainJaws 1 4096 true false false false true false (fun _ => 0) (fun _ => (0 : ℚ)) 1).2,
       isAcquireB e = false) :=
  ⟨rfl, by with_unfolding_all rfl,
   zero_size_config_error 1 4096 30 true false false false true false (fun _ => 0)
     (fun _ => (0 : ℚ)) 1 rfl (by with_unfolding_all rfl)⟩

/-! Lemmas about the binary64 rounding model, leading to claim C1. -/

theorem bitsAux_zero (f : ℕ) : bitsAux f 0 = 0 := by cases f <;> rfl

theorem clogAux_one (f : ℕ) : clogAux f 1 = 0 := by cases f <;> rfl

theorem bitsAux_spec : ∀ f n : ℕ, 0 < n → n < 2 ^ f →
    2 ^ (bitsAux f n - 1) ≤ n ∧ n < 2 ^ bitsAux f n ∧ 0 < bitsAux f n := by
  intro f
  induction f with
  | zero =>
      intro n h0 hf
      rw [pow_zero] at hf
      omega
  | succ f ih =>
      intro n h0 hf
      rw [bitsAux, if_neg (by omega : ¬n = 0)]
      by_cases hn1 : n = 1
      · subst hn1
        rw [show (1 : ℕ) / 2 = 0 from rfl, bitsAux_zero]
        norm_num
      · have h2 : 0 < n / 2 := by omega
        have hf2 : n / 2 < 2 ^ f := by
          have e : 2 ^ (f + 1) = 2 ^ f * 2 := pow_succ 2 f
          omega
        obtain ⟨ih1, ih2, ih3⟩ := ih (n / 2) h2 hf2
        have e1 : 2 ^ (bitsAux f (n / 2) - 1) * 2 = 2 ^ bitsAux f (n / 2) := by
          rw [← pow_succ]
          congr 1
          omega
        have e2 : 2 ^ (bitsAux f (n / 2) + 1) = 2 ^ bitsAux f (n / 2) * 2 := pow_succ 2 _
        refine ⟨?_, ?_, by omega⟩
        · have e3 : bitsAux f (n / 2) + 1 - 1 = bitsAux f (n / 2) := by omega
          rw [e3]
          omega
        · omega

theorem clogAux_spec : ∀ f n : ℕ, 2 ≤ n → n ≤ 2 ^ f →
    n ≤ 2 ^ clogAux f n ∧ 2 ^ (clogAux f n - 1) < n ∧ 0 < clogAux f n := by
  intro f
  induction f with
  | zero =>
      intro n h2 hf
      rw [pow_zero] at hf
      omega
  | succ f ih =>
      intro n h2 hf
      rw [clogAux, if_neg (by omega : ¬n ≤ 1)]
      by_cases hn2 : n = 2
      · subst hn2
        rw [show (2 + 1) / 2 = 1 from rfl, clogAux_one]
        norm_num
      · have hm2 : 2 ≤ (n + 1) / 2 := by omega
        have hmf : (n + 1) / 2 ≤ 2 ^ f := by
          have e : 2 ^ (f + 1) = 2 ^ f * 2 := pow_succ 2 f
          omega
        obtain ⟨ih1, ih2, ih3⟩ := ih ((n + 1) / 2) hm2 hmf
        have e1 : 2 ^ (clogAux f ((n + 1) / 2) - 1) * 2 = 2 ^ clogAux f ((n + 1) / 2) := by
          rw [← pow_succ]
          congr 1
          omega
        have e2 : 2 ^ (clogAux f ((n + 1) / 2) + 1) = 2 ^ clogAux f ((n + 1) / 2) * 2 :=
          pow_succ 2 _
        refine ⟨by omega, ?_, by omega⟩
        have e3 : clogAux f ((n + 1) / 2) + 1 - 1 = clogAux f ((n + 1) / 2) := by omega
        rw [e3]
        omega

theorem bits_spec (n : ℕ) (h0 : 0 < n) (hn : n < 2 ^ 128) :
    2 ^ (bits n - 1) ≤ n ∧ n < 2 ^ bits n ∧ 0 < bits n := bitsAux_spec 128 n h0 hn

theorem clog2_spec (n : ℕ) (h2 : 2 ≤ n) (hn : n ≤ 2 ^ 128) :
    n ≤ 2 ^ clog2 n ∧ 2 ^ (clog2 n - 1) < n ∧ 0 < clog2 n := clogAux_spec 128 n h2 hn

theorem two_ne_q : (2 : ℚ) ≠ 0 := by norm_num

theorem two_zpow_pos (e : ℤ) : (0 : ℚ) < 2 ^ e := zpow_pos (by norm_num) e

theorem two_zpow_natCast (n : ℕ) : (2 : ℚ) ^ (n : ℤ) = ((2 ^ n : ℕ) : ℚ) := by
  rw [zpow_natCast]
  norm_cast

theorem two_zpow_lt (a b : ℤ) (h : a < b) : (2 : ℚ) ^ a < (2 : ℚ) ^ b :=
  zpow_lt_zpow_right₀ (by norm_num) h

theorem elog_spec (x : ℚ) (hx : 0 < x) (hlo : (2 : ℚ) ^ (-(127 : ℤ)) < x)
    (hhi : x < (2 : ℚ) ^ (127 : ℤ)) :
    (2 : ℚ) ^ elog x ≤ x ∧ x < (2 : ℚ) ^ (elog x + 1) := by
  rw [elog]
  by_cases h1 : 1 ≤ x
  · rw [if_pos h1]
    have hge : 1 ≤ ⌊x⌋ := by
      rw [Int.le_floor]
      exact_mod_cast h1
    have hnn : ((Int.toNat ⌊x⌋ : ℤ)) = ⌊x⌋ := Int.toNat_of_nonneg (by omega)
    set n := Int.toNat ⌊x⌋ with hn
    have h0n : 0 < n := by omega
    have hnx : (n : ℚ) ≤ x := by
      have h := Int.floor_le x
      rw [← hnn] at h
      exact_mod_cast h
    have hxn : x < (n : ℚ) + 1 := by
      have h := Int.lt_floor_add_one x
      rw [← hnn] at h
      exact_mod_cast h
    have hn128 : n < 2 ^ 128 := by
      have h127 : x < ((2 ^ 127 : ℕ) : ℚ) := by
        rw [← two_zpow_natCast]
        exact_mod_cast hhi
      have h' : (n : ℚ) < ((2 ^ 128 : ℕ) : ℚ) := lt_of_le_of_lt hnx (h127.trans (by norm_num))
      exact_mod_cast h'
    obtain ⟨hb1, hb2, hb3⟩ := bits_spec n h0n hn128
    constructor
    · have he : ((bits n : ℤ) - 1) = ((bits n - 1 : ℕ) : ℤ) := by omega
      rw [he, two_zpow_natCast]
      calc ((2 ^ (bits n - 1) : ℕ) : ℚ) ≤ (n : ℚ) := by exact_mod_cast hb1
        _ ≤ x := hnx
    · have he : ((bits n : ℤ) - 1 + 1) = ((bits n : ℕ) : ℤ) := by ring
      rw [he, two_zpow_natCast]
      calc x < (n : ℚ) + 1 := hxn
        _ ≤ ((2 ^ bits n : ℕ) : ℚ) := by exact_mod_cast hb2
  · rw [if_neg h1]
    push_neg at h1
    have hxi : 1 < x⁻¹ := (one_lt_inv₀ hx).mpr h1
    have hceil : x⁻¹ ≤ (⌈x⁻¹⌉ : ℚ) := Int.le_ceil _
    have h2c : 2 ≤ ⌈x⁻¹⌉ := by
      have h1c : (1 : ℚ) < (⌈x⁻¹⌉ : ℚ) := lt_of_lt_of_le hxi hceil
      have : (1 : ℤ) < ⌈x⁻¹⌉ := by exact_mod_cast h1c
      omega
    have hcc : ((Int.toNat ⌈x⁻¹⌉ : ℤ)) = ⌈x⁻¹⌉ := Int.toNat_of_nonneg (by omega)
    set c := Int.toNat ⌈x⁻¹⌉ with hcdef
    have hc2 : 2 ≤ c := by omega
    have hinv : x⁻¹ < (2 : ℚ) ^ (127 : ℤ) := by
      have h' : x⁻¹ < ((2 : ℚ) ^ (-(127 : ℤ)))⁻¹ := by
        rw [inv_lt_inv₀ hx (two_zpow_pos _)]
        exact hlo
      rwa [zpow_neg, inv_inv] at h'
    have hc128 : c ≤ 2 ^ 128 := by
      have hzle : ⌈x⁻¹⌉ ≤ ((2 ^ 127 : ℕ) : ℤ) := by
        rw [Int.ceil_le]
        have h' : x⁻¹ ≤ ((2 ^ 127 : ℕ) : ℚ) := by
          rw [← two_zpow_natCast]
          exact le_of_lt hinv
        exact_mod_cast h'
      have hb : (2 ^ 127 : ℕ) ≤ 2 ^ 128 := by norm_num
      omega
    obtain ⟨hc1, hcm, hc0⟩ := clog2_spec c hc2 hc128
    constructor
    · have hxa : x⁻¹ ≤ ((2 ^ clog2 c : ℕ) : ℚ) := by
        refine le_trans hceil ?_
        have hq : (⌈x⁻¹⌉ : ℚ) = (c : ℚ) := by exact_mod_cast hcc.symm
        rw [hq]
        exact_mod_cast hc1
      have hpos : (0 : ℚ) < ((2 ^ clog2 c : ℕ) : ℚ) := by positivity
      have hres : (((2 ^ clog2 c : ℕ) : ℚ))⁻¹ ≤ x := by
        rw [inv_le_comm₀ hpos hx]
        exact hxa
      rw [zpow_neg, two_zpow_natCast]
      exact hres
    · have hlt : ((2 ^ (clog2 c - 1) : ℕ) : ℚ) < x⁻¹ := by
        have h3 : (⌈x⁻¹⌉ : ℚ) < x⁻¹ + 1 := Int.ceil_lt_add_one _
        have h4 : ((2 ^ (clog2 c - 1) : ℕ) : ℚ) + 1 ≤ (⌈x⁻¹⌉ : ℚ) := by
          have h5 : (2 ^ (clog2 c - 1) : ℕ) + 1 ≤ c := hcm
          have hq : (⌈x⁻¹⌉ : ℚ) = (c : ℚ) := by exact_mod_cast hcc.symm
          rw [hq]
          exact_mod_cast h5
        linarith
      have hpos : (0 : ℚ) < ((2 ^ (clog2 c - 1) : ℕ) : ℚ) := by positivity
      have hx2 : x < (((2 ^ (clog2 c - 1) : ℕ) : ℚ))⁻¹ := by
        rw [lt_inv_comm₀ hx hpos]
        exact hlt
      have he : (-(clog2 c : ℤ) + 1) = -(((clog2 c - 1 : ℕ) : ℤ)) := by omega
      rw [he, zpow_neg, two_zpow_natCast]
      exact hx2

theorem rne_intCast (m : ℤ) : rne (m : ℚ) = m := by
  rw [rne, Int.floor_intCast]
  rw [if_pos (by norm_num : (m : ℚ) - (m : ℚ) < 1 / 2)]

theorem rne_close (y : ℚ) (m : ℤ) (h : |y - (m : ℚ)| < 1 / 2) : rne y = m := by
  rw [abs_lt] at h
  obtain ⟨h1, h2⟩ := h
  rcases le_or_lt (m : ℚ) y with hle | hlt
  · have hfl : ⌊y⌋ = m := by
      rw [Int.floor_eq_iff]
      exact ⟨hle, by linarith⟩
    rw [rne, hfl]
    rw [if_pos (by linarith : y - ((m : ℤ) : ℚ) < 1 / 2)]
  · have hfl : ⌊y⌋ = m - 1 := by
      rw [Int.floor_eq_iff]
      constructor
      · push_cast
        linarith
      · push_cast
        linarith
    rw [rne, hfl]
    have hc1 : ¬(y - ((m - 1 : ℤ) : ℚ) < 1 / 2) := by
      push_cast
      linarith
    have hc2 : 1 / 2 < y - ((m - 1 : ℤ) : ℚ) := by
      push_cast
      linarith
    rw [if_neg hc1, if_pos hc2]
    omega

theorem rne_err (y : ℚ) : |((rne y : ℤ) : ℚ) - y| ≤ 1 / 2 := by
  have hfl : (⌊y⌋ : ℚ) ≤ y := Int.floor_le y
  have hfl2 : y < (⌊y⌋ : ℚ) + 1 := Int.lt_floor_add_one y
  rw [rne]
  by_cases h1 : y - (⌊y⌋ : ℚ) < 1 / 2
  · rw [if_pos h1, abs_le]
    constructor <;> linarith
  · rw [if_neg h1]
    push_neg at h1
    by_cases h2 : 1 / 2 < y - (⌊y⌋ : ℚ)
    · rw [if_pos h2, abs_le]
      push_cast
      constructor <;> linarith
    · rw [if_neg h2]
      push_neg at h2
      by_cases h3 : ⌊y⌋ % 2 = 0
      · rw [if_pos h3, abs_le]
        constructor <;> linarith
      · rw [if_neg h3, abs_le]
        push_cast
        constructor <;> linarith

theorem fl_zero : fl 0 = 0 := by
  rw [fl, if_pos le_rfl]

theorem fl_eq (x : ℚ) (hx : 0 < x) :
    fl x = ((rne (x * 2 ^ ((52 : ℤ) - elog x)) : ℤ) : ℚ) * 2 ^ (elog x - 52) := by
  rw [fl, if_neg (by linarith : ¬x ≤ 0)]

theorem fl_int_mul_zpow (m t : ℤ) (hm0 : 0 < m) (hm : m < 2 ^ 53)
    (hlo : (2 : ℚ) ^ (-(127 : ℤ)) < (m : ℚ) * 2 ^ t)
    (hhi : (m : ℚ) * 2 ^ t < (2 : ℚ) ^ (127 : ℤ)) :
    fl ((m : ℚ) * 2 ^ t) = (m : ℚ) * 2 ^ t := by
  set x := (m : ℚ) * 2 ^ t with hxdef
  have hx : 0 < x := mul_pos (by exact_mod_cast hm0) (two_zpow_pos t)
  obtain ⟨he1, he2⟩ := elog_spec x hx hlo hhi
  have hx53 : x < (2 : ℚ) ^ (53 + t) := by
    have hmq : (m : ℚ) < ((2 ^ 53 : ℤ) : ℚ) := by exact_mod_cast hm
    have h1 : x < ((2 ^ 53 : ℤ) : ℚ) * 2 ^ t :=
      mul_lt_mul_of_pos_right hmq (two_zpow_pos t)
    have h2 : ((2 ^ 53 : ℤ) : ℚ) * (2 : ℚ) ^ t = (2 : ℚ) ^ (53 + t) := by
      rw [zpow_add₀ two_ne_q]
      congr 1
      rw [show ((53 : ℤ)) = ((53 : ℕ) : ℤ) from rfl, two_zpow_natCast]
      norm_num
    rwa [h2] at h1
  have helt : elog x < 53 + t := by
    have h := lt_of_le_of_lt he1 hx53
    exact (zpow_lt_zpow_iff_right₀ (by norm_num : (1 : ℚ) < 2)).mp h
  have hs : 0 ≤ t + 52 - elog x := by omega
  have hy : x * 2 ^ ((52 : ℤ) - elog x) = ((m * 2 ^ (t + 52 - elog x).toNat : ℤ) : ℚ) := by
    push_cast
    rw [← zpow_natCast (2 : ℚ) (t + 52 - elog x).toNat, Int.toNat_of_nonneg hs, hxdef]
    rw [mul_assoc, ← zpow_add₀ two_ne_q]
    congr 1
    ring
  rw [fl_eq x hx, hy, rne_intCast, ← hy]
  rw [mul_assoc, ← zpow_add₀ two_ne_q,
    show ((52 : ℤ) - elog x) + (elog x - 52) = 0 by ring, zpow_zero, mul_one]

theorem fl_err (x : ℚ) (hx : 0 < x) :
    |fl x - x| ≤ (2 : ℚ) ^ (elog x - 53) := by
  set e := elog x with hedef
  set y := x * 2 ^ ((52 : ℤ) - e) with hydef
  have hxy : x = y * 2 ^ (e - 52) := by
    rw [hydef, mul_assoc, ← zpow_add₀ two_ne_q,
      show ((52 : ℤ) - e) + (e - 52) = 0 by ring, zpow_zero, mul_one]
  rw [fl_eq x hx, ← hedef, ← hydef]
  calc |((rne y : ℤ) : ℚ) * 2 ^ (e - 52) - x|
      = |((rne y : ℤ) : ℚ) - y| * 2 ^ (e - 52) := by
        rw [hxy, ← sub_mul, abs_mul, abs_of_pos (two_zpow_pos _)]
    _ ≤ (1 / 2) * 2 ^ (e - 52) :=
        mul_le_mul_of_nonneg_right (rne_err y) (two_zpow_pos _).le
    _ = (2 : ℚ) ^ (e - 53) := by
        rw [show (1 / 2 : ℚ) = 2 ^ (-1 : ℤ) by norm_num, ← zpow_add₀ two_ne_q,
          show (-1 : ℤ) + (e - 52) = e - 53 by ring]

theorem fl_round_to (x : ℚ) (k : ℤ) (hx : 0 < x) (he52 : elog x ≤ 52)
    (hclose : |x - (k : ℚ)| < (2 : ℚ) ^ (elog x - 53)) :
    fl x = (k : ℚ) := by
  have hs : 0 ≤ 52 - elog x := by omega
  have hm : (k : ℚ) * 2 ^ ((52 : ℤ) - elog x) = ((k * 2 ^ (52 - elog x).toNat : ℤ) : ℚ) := by
    push_cast
    rw [← zpow_natCast (2 : ℚ) (52 - elog x).toNat, Int.toNat_of_nonneg hs]
  set y := x * 2 ^ ((52 : ℤ) - elog x) with hydef
  have hclose2 : |y - ((k * 2 ^ (52 - elog x).toNat : ℤ) : ℚ)| < 1 / 2 := by
    rw [← hm, hydef, ← sub_mul, abs_mul, abs_of_pos (two_zpow_pos _)]
    calc |x - (k : ℚ)| * 2 ^ ((52 : ℤ) - elog x)
        < (2 : ℚ) ^ (elog x - 53) * 2 ^ ((52 : ℤ) - elog x) :=
          mul_lt_mul_of_pos_right hclose (two_zpow_pos _)
      _ = 1 / 2 := by
          rw [← zpow_add₀ two_ne_q, show (elog x - 53) + ((52 : ℤ) - elog x) = -1 by ring]
          norm_num
  rw [fl_eq x hx, ← hydef, rne_close y _ hclose2, ← hm]
  rw [mul_assoc, ← zpow_add₀ two_ne_q,
    show ((52 : ℤ) - elog x) + (elog x - 52) = 0 by ring, zpow_zero, mul_one]

theorem fl_natCast (M : ℕ) (h1 : 1 ≤ M) (hM : M ≤ 2 ^ 50) : fl (M : ℚ) = (M : ℚ) := by
  have hx : ((M : ℤ) : ℚ) * 2 ^ (0 : ℤ) = (M : ℚ) := by
    rw [zpow_zero, mul_one]
    norm_cast
  have hlo : (2 : ℚ) ^ (-(127 : ℤ)) < ((M : ℤ) : ℚ) * 2 ^ (0 : ℤ) := by
    rw [hx]
    calc (2 : ℚ) ^ (-(127 : ℤ)) < 2 ^ (0 : ℤ) := two_zpow_lt _ _ (by norm_num)
      _ = 1 := zpow_zero 2
      _ ≤ (M : ℚ) := by exact_mod_cast h1
  have hhi : ((M : ℤ) : ℚ) * 2 ^ (0 : ℤ) < (2 : ℚ) ^ (127 : ℤ) := by
    rw [hx]
    calc (M : ℚ) ≤ ((2 ^ 50 : ℕ) : ℚ) := by exact_mod_cast hM
      _ = 2 ^ ((50 : ℕ) : ℤ) := (two_zpow_natCast 50).symm
      _ < 2 ^ (127 : ℤ) := two_zpow_lt _ _ (by norm_num)
  have h := fl_int_mul_zpow (M : ℤ) 0 (by exact_mod_cast h1)
    (by calc (M : ℤ) ≤ 2 ^ 50 := by exact_mod_cast hM
          _ < 2 ^ 53 := by norm_num) hlo hhi
  rwa [hx] at h

theorem rawSize_zero (P : ℕ) : rawSize 0 P = 0 := by
  simp [rawSize, fl_zero]

set_option maxRecDepth 4000

theorem rawSize_50 (M : ℕ) (h1 : 1 ≤ M) (hM : M ≤ 2 ^ 50) : rawSize M 50 = M / 2 := by
  have hc : fl (((50 : ℕ) : ℚ) / 100) = 1 / 2 := by
    rw [show (((50 : ℕ) : ℚ)) = (50 : ℚ) by norm_num]
    with_unfolding_all rfl
  have hx : ((M : ℤ) : ℚ) * 2 ^ (-1 : ℤ) = (M : ℚ) * (1 / 2) := by
    rw [show ((2 : ℚ) ^ (-1 : ℤ)) = 1 / 2 by norm_num]
    norm_cast
  have hMq1 : (1 : ℚ) ≤ (M : ℚ) := by exact_mod_cast h1
  have hMq : (M : ℚ) ≤ 1125899906842624 := by
    calc (M : ℚ) ≤ ((2 ^ 50 : ℕ) : ℚ) := by exact_mod_cast hM
      _ = 1125899906842624 := by norm_num
  have hflx : fl ((M : ℚ) * (1 / 2)) = (M : ℚ) * (1 / 2) := by
    rw [← hx]
    apply fl_int_mul_zpow
    · exact_mod_cast h1
    · calc (M : ℤ) ≤ 2 ^ 50 := by exact_mod_cast hM
        _ < 2 ^ 53 := by norm_num
    · rw [hx]
      have h2 : (2 : ℚ) ^ (-(127 : ℤ)) < 1 / 2 := by
        calc (2 : ℚ) ^ (-(127 : ℤ)) < 2 ^ (-1 : ℤ) := two_zpow_lt _ _ (by norm_num)
          _ = 1 / 2 := by norm_num
      linarith
    · rw [hx]
      have h2 : (2 : ℚ) ^ (127 : ℤ) = 170141183460469231731687303715884105728 := by norm_num
      linarith
  rw [rawSize, hc, fl_natCast M h1 hM, hflx]
  rw [show (M : ℚ) * (1 / 2) = ((M : ℤ) : ℚ) / ((2 : ℕ) : ℚ) by push_cast; ring]
  rw [Rat.floor_intCast_div_natCast]
  rw [show ((M : ℤ)) / (((2 : ℕ) : ℤ)) = ((M / 2 : ℕ) : ℤ) from (Int.natCast_div M 2).symm]
  exact Int.toNat_natCast _

theorem rawSize_75 (M : ℕ) (h1 : 1 ≤ M) (hM : M ≤ 2 ^ 50) : rawSize M 75 = 3 * M / 4 := by
  have hc : fl (((75 : ℕ) : ℚ) / 100) = 3 / 4 := by
    rw [show (((75 : ℕ) : ℚ)) = (75 : ℚ) by norm_num]
    with_unfolding_all rfl
  have hx : ((3 * M : ℤ) : ℚ) * 2 ^ (-2 : ℤ) = (M : ℚ) * (3 / 4) := by
    rw [show ((2 : ℚ) ^ (-2 : ℤ)) = 1 / 4 by norm_num]
    push_cast
    ring
  have hMq1 : (1 : ℚ) ≤ (M : ℚ) := by exact_mod_cast h1
  have hMq : (M : ℚ) ≤ 1125899906842624 := by
    calc (M : ℚ) ≤ ((2 ^ 50 : ℕ) : ℚ) := by exact_mod_cast hM
      _ = 1125899906842624 := by norm_num
  have hflx : fl ((M : ℚ) * (3 / 4)) = (M : ℚ) * (3 / 4) := by
    rw [← hx]
    apply fl_int_mul_zpow
    · have hMz : (1 : ℤ) ≤ (M : ℤ) := by exact_mod_cast h1
      linarith
    · have hMz : (M : ℤ) ≤ 2 ^ 50 := by exact_mod_cast hM
      have h53 : (3 : ℤ) * 2 ^ 50 < 2 ^ 53 := by norm_num
      linarith
    · rw [hx]
      have h2 : (2 : ℚ) ^ (-(127 : ℤ)) < 1 / 2 := by
        have h3 : (2 : ℚ) ^ (-(127 : ℤ)) < 2 ^ (-1 : ℤ) := two_zpow_lt _ _ (by norm_num)
        have h4 : (2 : ℚ) ^ (-1 : ℤ) = 1 / 2 := by norm_num
        linarith
      nlinarith
    · rw [hx]
      have h2 : (2 : ℚ) ^ (127 : ℤ) = 170141183460469231731687303715884105728 := by norm_num
      nlinarith
  rw [rawSize, hc, fl_natCast M h1 hM, hflx]
  rw [show (M : ℚ) * (3 / 4) = ((3 * M : ℤ) : ℚ) / ((4 : ℕ) : ℚ) by push_cast; ring]
  rw [Rat.floor_intCast_div_natCast]
  rw [show ((3 * M : ℤ)) / (((4 : ℕ) : ℤ)) = ((3 * M / 4 : ℕ) : ℤ) by norm_cast]
  exact Int.toNat_natCast _

theorem rawSize_30 (M : ℕ) (h1 : 1 ≤ M) (hM : M ≤ 2 ^ 50) : rawSize M 30 = 3 * M / 10 := by
  have hc : fl (((30 : ℕ) : ℚ) / 100) = 5404319552844595 / 2 ^ 54 := by
    rw [show (((30 : ℕ) : ℚ)) = (30 : ℚ) by norm_num]
    with_unfolding_all rfl
  have hMq1 : (1 : ℚ) ≤ (M : ℚ) := by exact_mod_cast h1
  have hMq : (M : ℚ) ≤ 1125899906842624 := by
    calc (M : ℚ) ≤ ((2 ^ 50 : ℕ) : ℚ) := by exact_mod_cast hM
      _ = 1125899906842624 := by norm_num
  set x : ℚ := (M : ℚ) * (5404319552844595 / 2 ^ 54) with hxdef
  have hxpos : 0 < x := by
    rw [hxdef]
    have h0 : (0 : ℚ) < 5404319552844595 / 2 ^ 54 := by norm_num
    nlinarith
  have hcle : (5404319552844595 : ℚ) / 2 ^ 54 ≤ x := by
    rw [hxdef]
    nlinarith
  have hcub : x ≤ 1125899906842624 * (5404319552844595 / 2 ^ 54) := by
    rw [hxdef]
    have h0 : (0 : ℚ) ≤ 5404319552844595 / 2 ^ 54 := by norm_num
    nlinarith
  have hxlo : (2 : ℚ) ^ (-(127 : ℤ)) < x :=
    lt_of_lt_of_le (by norm_num : (2 : ℚ) ^ (-(127 : ℤ)) < 5404319552844595 / 2 ^ 54) hcle
  have hxhi : x < (2 : ℚ) ^ (127 : ℤ) :=
    lt_of_le_of_lt hcub
      (by norm_num : (1125899906842624 : ℚ) * (5404319552844595 / 2 ^ 54) < 2 ^ (127 : ℤ))
  obtain ⟨hE1, hE2⟩ := elog_spec x hxpos hxlo hxhi
  have he52 : elog x ≤ 52 := by
    have hx52 : x < (2 : ℚ) ^ (52 : ℤ) :=
      lt_of_le_of_lt hcub
        (by norm_num : (1125899906842624 : ℚ) * (5404319552844595 / 2 ^ 54) < 2 ^ (52 : ℤ))
    have h8 := (zpow_lt_zpow_iff_right₀ (by norm_num : (1 : ℚ) < 2)).mp
      (lt_of_le_of_lt hE1 hx52)
    omega
  have hTx : 3 * (M : ℚ) / 10 - x = (M : ℚ) / 90071992547409920 := by
    rw [hxdef]
    ring
  rcases Nat.eq_zero_or_pos ((3 * M) % 10) with h10 | h10
  · have h3M : 3 * M = 10 * (3 * M / 10) :=
      (Nat.mul_div_cancel' (Nat.dvd_of_mod_eq_zero h10)).symm
    set k : ℕ := 3 * M / 10 with hkdef
    have hcast : (3 : ℚ) * (M : ℚ) = 10 * (k : ℚ) := by exact_mod_cast h3M
    have hkq : (((k : ℤ)) : ℚ) = 3 * (M : ℚ) / 10 := by
      push_cast
      linarith
    have hclose : |x - (((k : ℤ)) : ℚ)| < (2 : ℚ) ^ (elog x - 53) := by
      rw [hkq, abs_sub_comm,
        abs_of_nonneg (by linarith [hTx] : (0 : ℚ) ≤ 3 * (M : ℚ) / 10 - x)]
      rw [hTx]
      have hz54 : (2 : ℚ) ^ (54 : ℤ) = 18014398509481984 := by norm_num
      have hA : (2 : ℚ) ^ (elog x - 53) * 2 ^ (54 : ℤ) = 2 ^ (elog x + 1) := by
        rw [← zpow_add₀ two_ne_q]
        congr 1
        ring
      have hB : x < (2 : ℚ) ^ (elog x - 53) * 18014398509481984 := by
        rw [← hz54, hA]
        exact hE2
      have hC : (M : ℚ) / 5 < x := by
        rw [hxdef]
        nlinarith
      linarith
    have hflx : fl x = (((k : ℤ)) : ℚ) := fl_round_to x (k : ℤ) hxpos he52 hclose
    rw [rawSize, hc, fl_natCast M h1 hM, ← hxdef, hflx, Int.floor_intCast, Int.toNat_natCast]
  · have h3M : 3 * M = 10 * (3 * M / 10) + (3 * M) % 10 := (Nat.div_add_mod (3 * M) 10).symm
    set k : ℕ := 3 * M / 10 with hkdef
    set r : ℕ := (3 * M) % 10 with hrdef
    have hr9 : r ≤ 9 := Nat.lt_succ_iff.mp (Nat.mod_lt (3 * M) (by norm_num))
    have hrq1 : (1 : ℚ) ≤ (r : ℚ) := by exact_mod_cast h10
    have hrq9 : (r : ℚ) ≤ 9 := by exact_mod_cast hr9
    have hT : 3 * (M : ℚ) / 10 = (k : ℚ) + (r : ℚ) / 10 := by
      have hcast : (3 : ℚ) * (M : ℚ) = 10 * (k : ℚ) + (r : ℚ) := by exact_mod_cast h3M
      linarith
    obtain ⟨herr1, herr2⟩ := abs_le.mp (fl_err x hxpos)
    have hz53 : (2 : ℚ) ^ (53 : ℤ) = 9007199254740992 := by norm_num
    have hsharp : (2 : ℚ) ^ (elog x - 53) ≤ x / 9007199254740992 := by
      rw [le_div_iff₀ (by norm_num : (0 : ℚ) < 9007199254740992)]
      calc (2 : ℚ) ^ (elog x - 53) * 9007199254740992
          = 2 ^ (elog x - 53) * 2 ^ (53 : ℤ) := by rw [hz53]
        _ = 2 ^ elog x := by rw [← zpow_add₀ two_ne_q]; congr 1; ring
        _ ≤ x := hE1
    have hfloor : ⌊fl x⌋ = ((k : ℕ) : ℤ) := by
      rw [Int.floor_eq_iff]
      constructor
      · push_cast
        linarith
      · push_cast
        linarith
    rw [rawSize, hc, fl_natCast M h1 hM, ← hxdef, hfloor, Int.toNat_natCast]

theorem rawSize_exact (M P : ℕ) (hP : P = 30 ∨ P = 50 ∨ P = 75) (hM : M ≤ 2 ^ 50) :
    rawSize M P = M * P / 100 := by
  rcases Nat.eq_zero_or_pos M with h0 | h1
  · subst h0
    rw [rawSize_zero]
    omega
  · rcases hP with rfl | rfl | rfl
    · rw [rawSize_30 M h1 hM]
      omega
    · rw [rawSize_50 M h1 hM]
      omega
    · rw [rawSize_75 M h1 hM]
      omega

/-- Claim C1 (amended): for every supported tier P (30, 50, 75), every total
memory M and every page size, the computed buffer size is a non-negative
multiple of the page size; and for every M up to 2^50 bytes (1 PiB, beyond any
physical memory) it equals floor(M * P / 100) rounded down to a page multiple
and is at most M * P / 100.  (For astronomically large M the binary64 rounding
in the percentage multiplication can deviate from the exact value; see the
counterexample.) -/
theorem compute_size_amended (P M pg : ℕ) (hP : P = 30 ∨ P = 50 ∨ P = 75) :
    pg ∣ bufferSize M P pg ∧
    (M ≤ 2 ^ 50 →
      bufferSize M P pg = M * P / 100 / pg * pg ∧
      (bufferSize M P pg : ℚ) ≤ (M : ℚ) * P / 100) := by
  constructor
  · exact dvd_mul_left pg (rawSize M P / pg)
  · intro hM
    have hraw := rawSize_exact M P hP hM
    constructor
    · show rawSize M P / pg * pg = M * P / 100 / pg * pg
      rw [hraw]
    · show ((rawSize M P / pg * pg : ℕ) : ℚ) ≤ (M : ℚ) * P / 100
      rw [hraw]
      have h1 : M * P / 100 / pg * pg ≤ M * P / 100 := Nat.div_mul_le_self _ _
      have h2 : ((M * P / 100 : ℕ) : ℚ) ≤ ((M * P : ℕ) : ℚ) / ((100 : ℕ) : ℚ) :=
        Nat.cast_div_le
      have h3 : ((M * P : ℕ) : ℚ) / ((100 : ℕ) : ℚ) = (M : ℚ) * P / 100 := by
        push_cast
        ring
      calc ((M * P / 100 / pg * pg : ℕ) : ℚ) ≤ ((M * P / 100 : ℕ) : ℚ) := by exact_mod_cast h1
        _ ≤ (M : ℚ) * P / 100 := by rw [← h3]; exact h2

theorem compute_size_amended_witness :
    (30 = 30 ∨ 30 = 50 ∨ 30 = 75) ∧
    (4096 ∣ bufferSize (2 ^ 32) 30 4096 ∧
      (2 ^ 32 ≤ 2 ^ 50 →
        bufferSize (2 ^ 32) 30 4096 = 2 ^ 32 * 30 / 100 / 4096 * 4096 ∧
        ((bufferSize (2 ^ 32) 30 4096 : ℕ) : ℚ) ≤ ((2 ^ 32 : ℕ) : ℚ) * ((30 : ℕ) : ℚ) / 100)) :=
  ⟨Or.inl rfl, compute_size_amended 30 (2 ^ 32) 4096 (Or.inl rfl)⟩

/-- Claim C1 counterexample: at total memory M = 6004799503160666 with tier 75
and page size 1, M * 0.75 = 4503599627370499.5 falls exactly halfway between
two representable floats and the round-to-nearest-even float computation rounds
up, so the computed buffer size is 4503599627370500: it differs from
floor(M * 75 / 100) = 4503599627370499 rounded down to a page multiple, and it
even exceeds M * 75 / 100. -/
theorem compute_size_float_cex :
    bufferSize 6004799503160666 75 1 ≠ 6004799503160666 * 75 / 100 / 1 * 1 ∧
    ¬((bufferSize 6004799503160666 75 1 : ℚ) ≤ (6004799503160666 : ℚ) * 75 / 100) := by
  have h : bufferSize 6004799503160666 75 1 = 4503599627370500 := by
    with_unfolding_all rfl
  constructor
  · rw [h]
    norm_num
  · rw [h]
    norm_num

end Jaws2
